import Mathlib

/-!
Verification of the signaling-server core (server.ts).

The server keeps three in-memory maps: `rooms : Map<roomId, Set<userId>>`,
`userIdToSocketIdMap : Map<userId, socketId>` and
`socketIdToUserIdMap : Map<socketId, userId>`, plus the socket.io room
membership manipulated through `socket.join` and `socket.to(room).emit`.
We model JavaScript `Map`s as association lists in insertion order and
JavaScript `Set`s as duplicate-free lists in insertion order, and each
event handler as a pure function from a server state to a new state plus
a list of emitted transport effects, each addressed to one socket id.
-/

/-- Association-list lookup, first matching key (JS `Map.get`). -/
def lookupA {α : Type} : List (String × α) → String → Option α
  | [], _ => none
  | (k, v) :: t, k0 => if k = k0 then some v else lookupA t k0

/-- Association-list update: replace the entry for the key in place, or
append a fresh entry at the end (JS `Map.set`, which keeps insertion order). -/
def setA {α : Type} : List (String × α) → String → α → List (String × α)
  | [], k0, v0 => [(k0, v0)]
  | (k, v) :: t, k0, v0 => if k = k0 then (k0, v0) :: t else (k, v) :: setA t k0 v0

/-- Association-list deletion (JS `Map.delete`; keys are unique in every
reachable state, so removing every matching entry is the same operation). -/
def eraseA {α : Type} : List (String × α) → String → List (String × α)
  | [], _ => []
  | (k, v) :: t, k0 => if k = k0 then eraseA t k0 else (k, v) :: eraseA t k0

/-- Set insertion (JS `Set.add`): append if absent, keep insertion order. -/
def setAdd (l : List String) (x : String) : List String :=
  if x ∈ l then l else l ++ [x]

/-- The `signal` payload: a discriminated kind, opaque negotiation data,
sender, target and room identities.  The opaque parts are never inspected. -/
structure SignalPayload where
  type : String
  sdp : Option String
  candidate : Option String
  senderUserId : String
  targetUserId : String
  roomId : String
  deriving DecidableEq, Repr

/-- The server's mutable state: the three maps of server.ts, the socket.io
room membership, and the set of currently connected socket ids. -/
structure ServerState where
  rooms : List (String × List String)
  userIdToSocketIdMap : List (String × String)
  socketIdToUserIdMap : List (String × String)
  ioRooms : List (String × List String)
  connected : List String
  deriving DecidableEq, Repr

/-- Outbound transport effects, each addressed to one socket id. -/
inductive Effect where
  | existingUsers (toSocket : String) (users : List String)
  | userJoined (toSocket : String) (userId : String)
  | userLeft (toSocket : String) (userId : String)
  | signal (toSocket : String) (payload : SignalPayload)
  deriving DecidableEq, Repr

/-- Inbound transport events dispatched to the handlers of server.ts. -/
inductive Event where
  | connect (sid : String)
  | joinRoom (sid roomId userId : String)
  | signal (sid : String) (payload : SignalPayload)
  | disconnect (sid : String)
  deriving DecidableEq, Repr

/-- The empty initial state. -/
def initState : ServerState := ⟨[], [], [], [], []⟩

/-- Membership set of a room in the room directory (empty if absent). -/
def membersOf (st : ServerState) (roomId : String) : List String :=
  (lookupA st.rooms roomId).getD []

/-- Socket ids currently in a socket.io room (empty if absent). -/
def ioMembersOf (st : ServerState) (roomId : String) : List String :=
  (lookupA st.ioRooms roomId).getD []

/-- `io.on('connection', ...)`: a fresh socket becomes connected; no
registry or directory entries are created yet. -/
def handleConnect (st : ServerState) (sid : String) : ServerState × List Effect :=
  ({ st with connected := setAdd st.connected sid }, [])

/-- The `join-room` handler of server.ts: `socket.join(roomId)`, bind both
map directions, create the room's set if absent and add the user, emit
`existing-users` (members of the room other than the joiner) to the joiner,
then `user-joined` to every other socket of the socket.io room. -/
def handleJoinRoom (st : ServerState) (sid roomId userId : String) :
    ServerState × List Effect :=
  let ioRooms := setA st.ioRooms roomId (setAdd (ioMembersOf st roomId) sid)
  let userIdToSocketIdMap := setA st.userIdToSocketIdMap userId sid
  let socketIdToUserIdMap := setA st.socketIdToUserIdMap sid userId
  let rooms0 :=
    if lookupA st.rooms roomId = none then st.rooms ++ [(roomId, [])] else st.rooms
  let roomUsersSet := (lookupA rooms0 roomId).getD []
  let roomUsersSet1 := setAdd roomUsersSet userId
  let rooms := setA rooms0 roomId roomUsersSet1
  let otherUserIdsInRoom := roomUsersSet1.filter (fun id => id ≠ userId)
  let recipients := ((lookupA ioRooms roomId).getD []).filter (fun s => s ≠ sid)
  (⟨rooms, userIdToSocketIdMap, socketIdToUserIdMap, ioRooms, st.connected⟩,
    Effect.existingUsers sid otherUserIdsInRoom ::
      recipients.map (fun s => Effect.userJoined s userId))

/-- The `signal` handler of server.ts: resolve the target user in the
forward map; if bound, forward the payload verbatim to that socket; if not,
drop the message silently.  State is never modified. -/
def handleSignal (st : ServerState) (sid : String) (payload : SignalPayload) :
    ServerState × List Effect :=
  match lookupA st.userIdToSocketIdMap payload.targetUserId with
  | some targetSocketId => (st, [Effect.signal targetSocketId payload])
  | none => (st, [])

/-- The `rooms.forEach` loop of the disconnect handler, state part: remove
the user from every room containing it, deleting rooms that become empty. -/
def removeUser (userId : String) : List (String × List String) → List (String × List String)
  | [] => []
  | (roomId, usersSet) :: t =>
    if userId ∈ usersSet then
      let usersSet1 := usersSet.filter (fun u => u ≠ userId)
      if usersSet1 = [] then removeUser userId t
      else (roomId, usersSet1) :: removeUser userId t
    else (roomId, usersSet) :: removeUser userId t

/-- The `rooms.forEach` loop of the disconnect handler, effect part: for
each room containing the user, emit `user-left` to every socket of the
socket.io room other than the disconnecting one. -/
def leaveEffects (userId sid : String) (ioRooms : List (String × List String)) :
    List (String × List String) → List Effect
  | [] => []
  | (roomId, usersSet) :: t =>
    if userId ∈ usersSet then
      (((lookupA ioRooms roomId).getD []).filter (fun s => s ≠ sid)).map
          (fun s => Effect.userLeft s userId)
        ++ leaveEffects userId sid ioRooms t
    else leaveEffects userId sid ioRooms t

/-- Socket.io removes a disconnecting socket from every room before the
`disconnect` handler runs. -/
def ioLeaveAll (ioRooms : List (String × List String)) (sid : String) :
    List (String × List String) :=
  ioRooms.map (fun p => (p.1, p.2.filter (fun s => s ≠ sid)))

/-- The `disconnect` handler of server.ts: reverse-look-up the user id of
the socket; if none, only the connection itself goes away; otherwise delete
the forward entry keyed by that user id (no check that it still points at
this socket), delete the reverse entry, and run the room-cleanup loop. -/
def handleDisconnect (st : ServerState) (sid : String) : ServerState × List Effect :=
  let ioRooms := ioLeaveAll st.ioRooms sid
  let connected := st.connected.filter (fun s => s ≠ sid)
  match lookupA st.socketIdToUserIdMap sid with
  | none => ({ st with ioRooms := ioRooms, connected := connected }, [])
  | some disconnectedUserId =>
    (⟨removeUser disconnectedUserId st.rooms,
      eraseA st.userIdToSocketIdMap disconnectedUserId,
      eraseA st.socketIdToUserIdMap sid,
      ioRooms, connected⟩,
      leaveEffects disconnectedUserId sid ioRooms st.rooms)

/-- One dispatch step: route an inbound event to its handler. -/
def stepEvent (st : ServerState) : Event → ServerState × List Effect
  | .connect sid => handleConnect st sid
  | .joinRoom sid roomId userId => handleJoinRoom st sid roomId userId
  | .signal sid payload => handleSignal st sid payload
  | .disconnect sid => handleDisconnect st sid

/-- Run a sequence of events from a state, discarding effects. -/
def runFrom (st : ServerState) : List Event → ServerState
  | [] => st
  | e :: t => runFrom (stepEvent st e).1 t

/-- Transport-level wellformedness of one event: `connect` introduces a
socket id that is not currently connected; every other event is fired by
the transport for a currently connected socket. -/
def wfEvent (st : ServerState) : Event → Bool
  | .connect sid => !st.connected.contains sid
  | .joinRoom sid _ _ => st.connected.contains sid
  | .signal sid _ => st.connected.contains sid
  | .disconnect sid => st.connected.contains sid

/-- Transport-level wellformedness of an event sequence. -/
def wfEvents (st : ServerState) : List Event → Bool
  | [] => true
  | e :: t => wfEvent st e && wfEvents (stepEvent st e).1 t

/-- A join is rebinding-free when the joining socket is not currently
reverse-bound to a different user and the user is not currently
forward-bound to a different socket.  Other events are unrestricted. -/
def goodEvent (st : ServerState) : Event → Bool
  | .joinRoom sid _ userId =>
    (match lookupA st.socketIdToUserIdMap sid with
      | none => true
      | some v => v == userId) &&
    (match lookupA st.userIdToSocketIdMap userId with
      | none => true
      | some h => h == sid)
  | _ => true

/-- Wellformed and rebinding-free event sequences. -/
def goodWf (st : ServerState) : List Event → Bool
  | [] => true
  | e :: t => wfEvent st e && goodEvent st e && goodWf (stepEvent st e).1 t

/-- Scenario trace: user alice joins room r1 via socket H1 and then a
second socket H2 joins with the same userId (identity rebinding). -/
def rebindTrace : List Event :=
  [Event.connect "H1", Event.joinRoom "H1" "r1" "alice",
    Event.connect "H2", Event.joinRoom "H2" "r1" "alice"]

/-- The rebinding scenario followed by the disconnect of the first socket. -/
def rebindDiscTrace : List Event := rebindTrace ++ [Event.disconnect "H1"]

/-- State just before the second join of the rebinding scenario. -/
def preRebindState : ServerState :=
  runFrom initState
    [Event.connect "H1", Event.joinRoom "H1" "r1" "alice", Event.connect "H2"]

/-- An offer payload from bob to alice in room r1. -/
def offerPayload : SignalPayload :=
  ⟨"offer", some "sdp-blob", none, "bob", "alice", "r1"⟩

/-- An offer payload addressed to carol, who never joined. -/
def strayPayload : SignalPayload :=
  ⟨"offer", some "sdp-blob", none, "bob", "carol", "r1"⟩

/-- Trace where one socket H first joins r1 as alice, then r2 as bob, then
disconnects: the reverse map names bob, so alice is never cleaned up. -/
def sameSocketTrace : List Event :=
  [Event.connect "H", Event.joinRoom "H" "r1" "alice",
    Event.joinRoom "H" "r2" "bob", Event.disconnect "H"]

/-- Trace where bob joined r1 via H2 and was then rebound to H3 via a join
of r2, so bob's resolved socket H3 is not in the socket.io room r1. -/
def driftTrace : List Event :=
  [Event.connect "H1", Event.joinRoom "H1" "r1" "alice",
    Event.connect "H2", Event.joinRoom "H2" "r1" "bob",
    Event.connect "H3", Event.joinRoom "H3" "r2" "bob"]

/-- A rebinding-free trace: alice and bob in r1 via distinct sockets. -/
def cleanTrace : List Event :=
  [Event.connect "H1", Event.joinRoom "H1" "r1" "alice",
    Event.connect "H2", Event.joinRoom "H2" "r1" "bob"]

/-- The driftTrace state with a fourth socket connected. -/
def driftState4 : ServerState :=
  runFrom initState (driftTrace ++ [Event.connect "H4"])

/-- Invariant: every room present in the directory is non-empty. -/
def NoEmptyRooms (st : ServerState) : Prop := ∀ p ∈ st.rooms, p.2 ≠ []

/-- Invariant: the room directory has no duplicate room keys. -/
def RoomKeysNodup (st : ServerState) : Prop := (st.rooms.map Prod.fst).Nodup

/-- Agreement of the two registry maps: every forward entry has a matching
reverse entry and conversely, with no stale entries in either direction. -/
def AgreeMaps (st : ServerState) : Prop :=
  (∀ u h, lookupA st.userIdToSocketIdMap u = some h →
    lookupA st.socketIdToUserIdMap h = some u) ∧
  (∀ h u, lookupA st.socketIdToUserIdMap h = some u →
    lookupA st.userIdToSocketIdMap u = some h)

/-- Every forward binding points at a currently connected socket. -/
def FwdLive (st : ServerState) : Prop :=
  ∀ u h, lookupA st.userIdToSocketIdMap u = some h → h ∈ st.connected

/-- Every member of every room has a forward binding in the registry. -/
def MemBound (st : ServerState) : Prop :=
  ∀ p ∈ st.rooms, ∀ u ∈ p.2, (lookupA st.userIdToSocketIdMap u).isSome

/-- Every room member's bound socket is in the matching socket.io room. -/
def IoSync (st : ServerState) : Prop :=
  ∀ p ∈ st.rooms, ∀ u ∈ p.2, ∀ h, lookupA st.userIdToSocketIdMap u = some h →
    h ∈ ioMembersOf st p.1

/-- The combined inductive invariant for rebinding-free executions. -/
def GInv (st : ServerState) : Prop :=
  AgreeMaps st ∧ FwdLive st ∧ MemBound st ∧ IoSync st

/-! Basic lemmas about the map and set operations. -/

theorem lookupA_setA_self {α : Type} (m : List (String × α)) (k : String) (v : α) :
    lookupA (setA m k v) k = some v := by
  induction m with
  | nil => simp [setA, lookupA]
  | cons p t ih =>
    obtain ⟨a, b⟩ := p
    by_cases hp : a = k
    · simp [setA, hp, lookupA]
    · simp [setA, hp, lookupA, ih]

theorem lookupA_setA_ne {α : Type} (m : List (String × α)) (k k0 : String) (v : α)
    (h : k ≠ k0) : lookupA (setA m k0 v) k = lookupA m k := by
  have h2 : ¬k0 = k := fun hh => h hh.symm
  induction m with
  | nil => simp [setA, lookupA, h2]
  | cons p t ih =>
    obtain ⟨a, b⟩ := p
    by_cases hp : a = k0
    · subst hp
      simp [setA, lookupA, h2]
    · simp [setA, hp, lookupA, ih]

theorem lookupA_eraseA_self {α : Type} (m : List (String × α)) (k : String) :
    lookupA (eraseA m k) k = none := by
  induction m with
  | nil => simp [eraseA, lookupA]
  | cons p t ih =>
    obtain ⟨a, b⟩ := p
    by_cases hp : a = k
    · simp [eraseA, hp, ih]
    · simp [eraseA, hp, lookupA, ih]

theorem lookupA_eraseA_ne {α : Type} (m : List (String × α)) (k k0 : String)
    (h : k ≠ k0) : lookupA (eraseA m k0) k = lookupA m k := by
  have h2 : ¬k0 = k := fun hh => h hh.symm
  induction m with
  | nil => simp [eraseA, lookupA]
  | cons p t ih =>
    obtain ⟨a, b⟩ := p
    by_cases hp : a = k0
    · subst hp
      simp [eraseA, lookupA, h2, ih]
    · simp [eraseA, hp, lookupA, ih]

theorem mem_of_lookupA {α : Type} {m : List (String × α)} {k : String} {v : α}
    (h : lookupA m k = some v) : (k, v) ∈ m := by
  induction m with
  | nil => simp [lookupA] at h
  | cons p t ih =>
    obtain ⟨a, b⟩ := p
    by_cases hp : a = k
    · subst hp
      simp [lookupA] at h
      simp [h]
    · simp [lookupA, hp] at h
      exact List.mem_cons_of_mem _ (ih h)

theorem lookupA_eq_none_iff {α : Type} (m : List (String × α)) (k : String) :
    lookupA m k = none ↔ k ∉ m.map Prod.fst := by
  induction m with
  | nil => simp [lookupA]
  | cons p t ih =>
    obtain ⟨a, b⟩ := p
    by_cases hp : a = k
    · simp [lookupA, hp]
    · simp [lookupA, hp, ih, Ne.symm hp]

theorem mem_setAdd {l : List String} {x y : String} :
    x ∈ setAdd l y ↔ x ∈ l ∨ x = y := by
  unfold setAdd
  by_cases h : y ∈ l
  · simp only [h, if_true]
    constructor
    · exact Or.inl
    · rintro (hx | rfl)
      · exact hx
      · exact h
  · simp [h]

theorem setAdd_ne_nil (l : List String) (x : String) : setAdd l x ≠ [] := by
  unfold setAdd
  by_cases h : x ∈ l
  · simp only [h, if_true]
    rintro rfl
    simp at h
  · simp [h]

theorem setAdd_eq_of_mem {l : List String} {x : String} (h : x ∈ l) :
    setAdd l x = l := by
  simp [setAdd, h]

theorem setA_lookup_id {α : Type} {m : List (String × α)} {k : String} {v : α}
    (h : lookupA m k = some v) : setA m k v = m := by
  induction m with
  | nil => simp [lookupA] at h
  | cons p t ih =>
    obtain ⟨a, b⟩ := p
    by_cases hp : a = k
    · subst hp
      simp [lookupA] at h
      simp [setA, h]
    · simp [lookupA, hp] at h
      simp [setA, hp, ih h]

theorem setA_setA {α : Type} (m : List (String × α)) (k : String) (v w : α) :
    setA (setA m k v) k w = setA m k w := by
  induction m with
  | nil => simp [setA]
  | cons p t ih =>
    obtain ⟨a, b⟩ := p
    by_cases hp : a = k
    · simp [setA, hp]
    · simp [setA, hp, ih]

theorem mem_setA_weak {α : Type} {m : List (String × α)} {k : String} {v : α}
    {p : String × α} (h : p ∈ setA m k v) : p ∈ m ∨ p = (k, v) := by
  induction m with
  | nil => simp [setA] at h; simp [h]
  | cons q t ih =>
    obtain ⟨a, b⟩ := q
    by_cases hp : a = k
    · simp [setA, hp] at h
      rcases h with h | h
      · exact Or.inr h
      · exact Or.inl (List.mem_cons_of_mem _ h)
    · simp [setA, hp] at h
      rcases h with h | h
      · exact Or.inl (by simp [h])
      · rcases ih h with h1 | h1
        · exact Or.inl (List.mem_cons_of_mem _ h1)
        · exact Or.inr h1

theorem eraseA_eq_filter {α : Type} (m : List (String × α)) (k : String) :
    eraseA m k = m.filter (fun p => p.1 ≠ k) := by
  induction m with
  | nil => rfl
  | cons q t ih =>
    obtain ⟨a, b⟩ := q
    by_cases hp : a = k
    · simp [eraseA, hp, List.filter_cons, ih]
    · simp [eraseA, hp, List.filter_cons, ih]

theorem mem_eraseA {α : Type} {m : List (String × α)} {k : String}
    {p : String × α} : p ∈ eraseA m k ↔ p ∈ m ∧ p.1 ≠ k := by
  simp [eraseA_eq_filter, List.mem_filter]

theorem lookupA_append {α : Type} (m1 m2 : List (String × α)) (k : String) :
    lookupA (m1 ++ m2) k =
      match lookupA m1 k with
      | some v => some v
      | none => lookupA m2 k := by
  induction m1 with
  | nil => simp [lookupA]
  | cons p t ih =>
    obtain ⟨a, b⟩ := p
    by_cases hp : a = k
    · simp [lookupA, hp]
    · simp [lookupA, hp, ih]

/-- The state produced by the `join-room` handler, written out explicitly. -/
theorem joinRoom_state_eq (st : ServerState) (sid roomId userId : String) :
    (handleJoinRoom st sid roomId userId).1 =
      ⟨setA (if lookupA st.rooms roomId = none then st.rooms ++ [(roomId, [])] else st.rooms)
          roomId (setAdd (membersOf st roomId) userId),
        setA st.userIdToSocketIdMap userId sid,
        setA st.socketIdToUserIdMap sid userId,
        setA st.ioRooms roomId (setAdd (ioMembersOf st roomId) sid),
        st.connected⟩ := by
  unfold handleJoinRoom
  cases h : lookupA st.rooms roomId with
  | none => simp [h, membersOf, lookupA_append, lookupA]
  | some us => simp [h, membersOf]

/-- The effects produced by the `join-room` handler, written out explicitly. -/
theorem joinRoom_effects_eq (st : ServerState) (sid roomId userId : String) :
    (handleJoinRoom st sid roomId userId).2 =
      Effect.existingUsers sid
          ((setAdd (membersOf st roomId) userId).filter (fun id => id ≠ userId)) ::
        ((setAdd (ioMembersOf st roomId) sid).filter (fun s => s ≠ sid)).map
          (fun s => Effect.userJoined s userId) := by
  unfold handleJoinRoom
  cases h : lookupA st.rooms roomId with
  | none => simp [h, membersOf, lookupA_append, lookupA, lookupA_setA_self]
  | some us => simp [h, membersOf, lookupA_setA_self]

/-- The room-cleanup loop never leaves the removed user in any entry. -/
theorem removeUser_not_mem (u : String) (m : List (String × List String)) :
    ∀ p ∈ removeUser u m, u ∉ p.2 := by
  induction m with
  | nil => simp [removeUser]
  | cons q t ih =>
    obtain ⟨r, us⟩ := q
    intro p hp
    simp only [removeUser] at hp
    by_cases hm : u ∈ us
    · simp only [if_pos hm] at hp
      by_cases he : us.filter (fun x => x ≠ u) = []
      · simp only [if_pos he] at hp
        exact ih p hp
      · simp only [if_neg he] at hp
        rcases List.mem_cons.1 hp with rfl | hp2
        · simp [List.mem_filter]
        · exact ih p hp2
    · simp only [if_neg hm] at hp
      rcases List.mem_cons.1 hp with rfl | hp2
      · exact hm
      · exact ih p hp2

/-- Projection lemmas for the `join-room` handler. -/
theorem joinRoom_fwd (st : ServerState) (sid roomId userId : String) :
    (handleJoinRoom st sid roomId userId).1.userIdToSocketIdMap =
      setA st.userIdToSocketIdMap userId sid := rfl

theorem joinRoom_rev (st : ServerState) (sid roomId userId : String) :
    (handleJoinRoom st sid roomId userId).1.socketIdToUserIdMap =
      setA st.socketIdToUserIdMap sid userId := rfl

theorem joinRoom_io (st : ServerState) (sid roomId userId : String) :
    (handleJoinRoom st sid roomId userId).1.ioRooms =
      setA st.ioRooms roomId (setAdd (ioMembersOf st roomId) sid) := rfl

theorem joinRoom_connected (st : ServerState) (sid roomId userId : String) :
    (handleJoinRoom st sid roomId userId).1.connected = st.connected := rfl

theorem joinRoom_rooms (st : ServerState) (sid roomId userId : String) :
    (handleJoinRoom st sid roomId userId).1.rooms =
      setA (if lookupA st.rooms roomId = none then st.rooms ++ [(roomId, [])] else st.rooms)
        roomId (setAdd (membersOf st roomId) userId) := by
  rw [joinRoom_state_eq]

/-- The state produced by the disconnect handler when the socket has a
reverse-map entry. -/
theorem disconnect_state_some (st : ServerState) (sid uid : String)
    (h : lookupA st.socketIdToUserIdMap sid = some uid) :
    (handleDisconnect st sid).1 =
      ⟨removeUser uid st.rooms,
        eraseA st.userIdToSocketIdMap uid,
        eraseA st.socketIdToUserIdMap sid,
        ioLeaveAll st.ioRooms sid,
        st.connected.filter (fun s => s ≠ sid)⟩ := by
  simp [handleDisconnect, h]

/-- The effects produced by the disconnect handler when the socket has a
reverse-map entry. -/
theorem disconnect_effects_some (st : ServerState) (sid uid : String)
    (h : lookupA st.socketIdToUserIdMap sid = some uid) :
    (handleDisconnect st sid).2 =
      leaveEffects uid sid (ioLeaveAll st.ioRooms sid) st.rooms := by
  simp [handleDisconnect, h]

/-- The state produced by the disconnect handler when the socket never
bound an identity. -/
theorem disconnect_state_none (st : ServerState) (sid : String)
    (h : lookupA st.socketIdToUserIdMap sid = none) :
    (handleDisconnect st sid).1 =
      { st with
        ioRooms := ioLeaveAll st.ioRooms sid
        connected := st.connected.filter (fun s => s ≠ sid) } := by
  simp [handleDisconnect, h]

/-- C1 (counterexample): in the rebinding scenario, resolve(alice) is H2
after H2's join, but the subsequent disconnect of H1 erases the alice
binding entirely — the code's disconnect handler deletes the forward entry
keyed by its stale reverse entry without checking that it still points at
the disconnecting socket — and also removes alice from room r1.  The
claimed post-state (alice -> H2 with memberships intact) is false. -/
theorem C1_counterexample :
    wfEvents initState rebindDiscTrace = true ∧
    lookupA (runFrom initState rebindTrace).userIdToSocketIdMap "alice" = some "H2" ∧
    lookupA (runFrom initState rebindDiscTrace).userIdToSocketIdMap "alice" = none ∧
    ¬ lookupA (runFrom initState rebindDiscTrace).userIdToSocketIdMap "alice" = some "H2" ∧
    lookupA (runFrom initState rebindDiscTrace).rooms "r1" = none ∧
    "alice" ∉ membersOf (runFrom initState rebindDiscTrace) "r1" := by
  refine ⟨by decide, by decide, by decide, by decide, by decide, by decide⟩

/-- C1 (amended, proved): last-bind-wins holds — after h2 joins as u,
resolve(u) returns h2 — but there is no reverse-map guard: disconnecting a
socket h1 whose stale reverse entry still names u deletes u's forward
binding (even though it points at h2) and removes u from every room. -/
theorem C1_amended (st : ServerState) (h1 h2 r u : String)
    (hrev : lookupA ((handleJoinRoom st h2 r u).1).socketIdToUserIdMap h1 = some u) :
    lookupA ((handleJoinRoom st h2 r u).1).userIdToSocketIdMap u = some h2 ∧
    lookupA (handleDisconnect (handleJoinRoom st h2 r u).1 h1).1.userIdToSocketIdMap u = none ∧
    ∀ p ∈ (handleDisconnect (handleJoinRoom st h2 r u).1 h1).1.rooms, u ∉ p.2 := by
  refine ⟨?_, ?_, ?_⟩
  · rw [joinRoom_fwd]
    exact lookupA_setA_self _ _ _
  · rw [disconnect_state_some _ _ _ hrev]
    exact lookupA_eraseA_self _ _
  · rw [disconnect_state_some _ _ _ hrev]
    exact removeUser_not_mem u _

/-- Witness for C1_amended at the concrete rebinding scenario. -/
theorem C1_amended_witness :
    lookupA ((handleJoinRoom preRebindState "H2" "r1" "alice").1).userIdToSocketIdMap "alice" = some "H2" ∧
    lookupA (handleDisconnect (handleJoinRoom preRebindState "H2" "r1" "alice").1 "H1").1.userIdToSocketIdMap "alice" = none ∧
    ∀ p ∈ (handleDisconnect (handleJoinRoom preRebindState "H2" "r1" "alice").1 "H1").1.rooms, "alice" ∉ p.2 :=
  C1_amended preRebindState "H1" "H2" "r1" "alice" (by decide)

/-- C6 (confirmed): if the target user of a signal payload is bound to
socket h in the forward map, the signal handler forwards exactly that
payload, unmodified, to h and to no other socket, and leaves the entire
state unchanged. -/
theorem C6_signal_relay_exact (st : ServerState) (sid : String) (p : SignalPayload)
    (h : String) (hbind : lookupA st.userIdToSocketIdMap p.targetUserId = some h) :
    handleSignal st sid p = (st, [Effect.signal h p]) := by
  simp [handleSignal, hbind]

/-- Witness for C6 at a concrete reachable state. -/
theorem C6_signal_relay_exact_witness :
    lookupA (runFrom initState rebindTrace).userIdToSocketIdMap offerPayload.targetUserId = some "H2" ∧
    handleSignal (runFrom initState rebindTrace) "H1" offerPayload =
      (runFrom initState rebindTrace, [Effect.signal "H2" offerPayload]) :=
  ⟨by decide,
    C6_signal_relay_exact (runFrom initState rebindTrace) "H1" offerPayload "H2" (by decide)⟩

/-- C7 (confirmed): if the target user of a signal payload has no binding,
the signal handler emits nothing at all (no delivery to anyone, no error
back to the sender) and leaves the registry and room directory unchanged;
the handler is a total function, so it cannot throw. -/
theorem C7_signal_soft_fail (st : ServerState) (sid : String) (p : SignalPayload)
    (hnone : lookupA st.userIdToSocketIdMap p.targetUserId = none) :
    handleSignal st sid p = (st, []) := by
  simp [handleSignal, hnone]

/-- Witness for C7 at a concrete reachable state. -/
theorem C7_signal_soft_fail_witness :
    lookupA (runFrom initState rebindTrace).userIdToSocketIdMap strayPayload.targetUserId = none ∧
    handleSignal (runFrom initState rebindTrace) "H1" strayPayload =
      (runFrom initState rebindTrace, []) :=
  ⟨by decide,
    C7_signal_soft_fail (runFrom initState rebindTrace) "H1" strayPayload (by decide)⟩

/-- C9 (confirmed): handling the same join-room twice in a row from the
same connection yields exactly the same server state — in particular the
same room directory and membership set — as handling it once. -/
theorem C9_join_idempotent (st : ServerState) (sid roomId userId : String) :
    (handleJoinRoom (handleJoinRoom st sid roomId userId).1 sid roomId userId).1 =
      (handleJoinRoom st sid roomId userId).1 := by
  rw [joinRoom_state_eq st sid roomId userId, joinRoom_state_eq]
  simp [membersOf, ioMembersOf, lookupA_setA_self, setA_setA,
    setAdd_eq_of_mem, mem_setAdd]

/-- C10 (confirmed): when a handle h bound as user v handles join-room
with a different userId u, the forward entry for v is left unchanged
(resolve(v) still returns h), and the bind touches only the forward entry
keyed u and the reverse entry keyed h. -/
theorem C10_rebind_frame (st : ServerState) (h r u v : String)
    (hfwd : lookupA st.userIdToSocketIdMap v = some h)
    (hne : v ≠ u) :
    lookupA (handleJoinRoom st h r u).1.userIdToSocketIdMap v = some h ∧
    (∀ w, w ≠ u → lookupA (handleJoinRoom st h r u).1.userIdToSocketIdMap w =
      lookupA st.userIdToSocketIdMap w) ∧
    (∀ g, g ≠ h → lookupA (handleJoinRoom st h r u).1.socketIdToUserIdMap g =
      lookupA st.socketIdToUserIdMap g) := by
  refine ⟨?_, fun w hw => ?_, fun g hg => ?_⟩
  · rw [joinRoom_fwd, lookupA_setA_ne _ _ _ _ hne]
    exact hfwd
  · rw [joinRoom_fwd, lookupA_setA_ne _ _ _ _ hw]
  · rw [joinRoom_rev, lookupA_setA_ne _ _ _ _ hg]

/-- Witness for C10: in the rebinding-scenario state, H2 (bound as alice)
joins r2 as bob; alice's forward entry survives and only the touched keys
change. -/
theorem C10_rebind_frame_witness :
    lookupA (handleJoinRoom (runFrom initState rebindTrace) "H2" "r2" "bob").1.userIdToSocketIdMap "alice" = some "H2" ∧
    (∀ w, w ≠ "bob" → lookupA (handleJoinRoom (runFrom initState rebindTrace) "H2" "r2" "bob").1.userIdToSocketIdMap w =
      lookupA (runFrom initState rebindTrace).userIdToSocketIdMap w) ∧
    (∀ g, g ≠ "H2" → lookupA (handleJoinRoom (runFrom initState rebindTrace) "H2" "r2" "bob").1.socketIdToUserIdMap g =
      lookupA (runFrom initState rebindTrace).socketIdToUserIdMap g) :=
  C10_rebind_frame (runFrom initState rebindTrace) "H2" "r2" "bob" "alice" (by decide) (by decide)

/-- The signal handler never changes the state. -/
theorem signal_state_eq (st : ServerState) (sid : String) (p : SignalPayload) :
    (handleSignal st sid p).1 = st := by
  unfold handleSignal
  cases lookupA st.userIdToSocketIdMap p.targetUserId <;> rfl

theorem setA_append_key {α : Type} (m : List (String × α)) (k : String) (w v : α)
    (h : lookupA m k = none) : setA (m ++ [(k, w)]) k v = m ++ [(k, v)] := by
  induction m with
  | nil => simp [setA]
  | cons p t ih =>
    obtain ⟨a, b⟩ := p
    by_cases hp : a = k
    · subst hp
      simp [lookupA] at h
    · simp only [lookupA, if_neg hp] at h
      simp [setA, hp, ih h]

/-- The room directory after a join, split on whether the room existed. -/
theorem joinRoom_rooms_cases (st : ServerState) (sid roomId userId : String) :
    (handleJoinRoom st sid roomId userId).1.rooms =
      if lookupA st.rooms roomId = none
      then st.rooms ++ [(roomId, setAdd (membersOf st roomId) userId)]
      else setA st.rooms roomId (setAdd (membersOf st roomId) userId) := by
  rw [joinRoom_rooms]
  by_cases h : lookupA st.rooms roomId = none
  · simp [h, setA_append_key _ _ _ _ h]
  · simp [h]

/-- The room-cleanup loop keeps every surviving room non-empty. -/
theorem removeUser_no_empty (u : String) (m : List (String × List String))
    (h : ∀ p ∈ m, p.2 ≠ []) : ∀ p ∈ removeUser u m, p.2 ≠ [] := by
  induction m with
  | nil => simp [removeUser]
  | cons q t ih =>
    obtain ⟨r, us⟩ := q
    have ht : ∀ p ∈ t, p.2 ≠ [] := fun p hp => h p (List.mem_cons_of_mem _ hp)
    intro p hp
    simp only [removeUser] at hp
    by_cases hm : u ∈ us
    · simp only [if_pos hm] at hp
      by_cases he : us.filter (fun x => x ≠ u) = []
      · simp only [if_pos he] at hp
        exact ih ht p hp
      · simp only [if_neg he] at hp
        rcases List.mem_cons.1 hp with rfl | hp2
        · exact he
        · exact ih ht p hp2
    · simp only [if_neg hm] at hp
      rcases List.mem_cons.1 hp with rfl | hp2
      · exact h _ (List.mem_cons_self _ _)
      · exact ih ht p hp2

/-- One dispatch step preserves non-emptiness of all rooms. -/
theorem noEmpty_step (st : ServerState) (e : Event) (h : NoEmptyRooms st) :
    NoEmptyRooms (stepEvent st e).1 := by
  cases e with
  | connect sid => exact h
  | signal sid payload =>
    intro p hp
    rw [stepEvent, signal_state_eq] at hp
    exact h p hp
  | joinRoom sid roomId userId =>
    intro p hp
    rw [stepEvent, joinRoom_rooms_cases] at hp
    by_cases hr : lookupA st.rooms roomId = none
    · rw [if_pos hr] at hp
      rcases List.mem_append.1 hp with hp2 | hp2
      · exact h p hp2
      · rcases List.mem_singleton.1 hp2 with rfl
        exact setAdd_ne_nil _ _
    · rw [if_neg hr] at hp
      rcases mem_setA_weak hp with hp2 | hp2
      · exact h p hp2
      · rcases hp2 with rfl
        exact setAdd_ne_nil _ _
  | disconnect sid =>
    intro p hp
    cases hrev : lookupA st.socketIdToUserIdMap sid with
    | none =>
      rw [stepEvent, disconnect_state_none st sid hrev] at hp
      exact h p hp
    | some uid =>
      rw [stepEvent, disconnect_state_some st sid uid hrev] at hp
      exact removeUser_no_empty uid st.rooms h p hp

/-- Non-emptiness of all rooms is preserved along any event sequence. -/
theorem noEmpty_runFrom (es : List Event) (st : ServerState) (h : NoEmptyRooms st) :
    NoEmptyRooms (runFrom st es) := by
  induction es generalizing st with
  | nil => exact h
  | cons e t ih => exact ih _ (noEmpty_step st e h)

/-- C4 (confirmed): after any sequence of events, every room present in
the room directory has a non-empty membership set — a removal that would
empty a room deletes the room from the directory within the same event. -/
theorem C4_no_empty_rooms (es : List Event) :
    NoEmptyRooms (runFrom initState es) :=
  noEmpty_runFrom es initState (by intro p hp; simp [initState] at hp)

/-- C2 (counterexample): the rebinding trace is transport-wellformed, yet
in its final state the reverse map holds the stale entry H1 -> alice while
the forward map holds alice -> H2, so the two maps do not agree. -/
theorem C2_counterexample :
    wfEvents initState rebindTrace = true ∧
    lookupA (runFrom initState rebindTrace).socketIdToUserIdMap "H1" = some "alice" ∧
    lookupA (runFrom initState rebindTrace).userIdToSocketIdMap "alice" = some "H2" ∧
    ¬ AgreeMaps (runFrom initState rebindTrace) := by
  refine ⟨by decide, by decide, by decide, ?_⟩
  intro hA
  have h1 : lookupA (runFrom initState rebindTrace).userIdToSocketIdMap "alice" = some "H1" :=
    hA.2 "H1" "alice" (by decide)
  have h2 : lookupA (runFrom initState rebindTrace).userIdToSocketIdMap "alice" = some "H2" := by
    decide
  rw [h2] at h1
  exact absurd (Option.some.inj h1) (by decide)

/-- C3 (counterexample): in sameSocketTrace, socket H joins r1 as alice,
rebinds to bob via r2, then disconnects; the cleanup removes only bob, so
alice is still a member of r1 although her connection H has disconnected
and run its cleanup, and her forward binding points at the dead socket. -/
theorem C3_counterexample :
    wfEvents initState sameSocketTrace = true ∧
    "alice" ∈ membersOf (runFrom initState sameSocketTrace) "r1" ∧
    lookupA (runFrom initState sameSocketTrace).userIdToSocketIdMap "alice" = some "H" ∧
    "H" ∉ (runFrom initState sameSocketTrace).connected := by
  refine ⟨by decide, by decide, by decide, by decide⟩

/-- C5 (counterexample): in the driftTrace state, H1 (alice) disconnects;
bob remains a member of the affected room r1 and resolves to socket H3,
but no user-left is addressed to H3 — the only emission goes to H2, a
socket bob no longer resolves to. -/
theorem C5_counterexample :
    wfEvents initState driftTrace = true ∧
    lookupA (runFrom initState driftTrace).socketIdToUserIdMap "H1" = some "alice" ∧
    "bob" ∈ membersOf (handleDisconnect (runFrom initState driftTrace) "H1").1 "r1" ∧
    lookupA (runFrom initState driftTrace).userIdToSocketIdMap "bob" = some "H3" ∧
    Effect.userLeft "H3" "alice" ∉ (handleDisconnect (runFrom initState driftTrace) "H1").2 ∧
    (handleDisconnect (runFrom initState driftTrace) "H1").2 = [Effect.userLeft "H2" "alice"] := by
  refine ⟨by decide, by decide, by decide, by decide, by decide, by decide⟩

/-- C8 (counterexample): when H4 joins r1 as carol in the driftTrace
state, bob is a member of r1 resolving to H3, yet no user-joined effect is
addressed to H3 — the broadcast reaches only the sockets of the socket.io
room. -/
theorem C8_counterexample :
    wfEvents initState (driftTrace ++ [Event.connect "H4"]) = true ∧
    "bob" ∈ membersOf (handleJoinRoom driftState4 "H4" "r1" "carol").1 "r1" ∧
    lookupA driftState4.userIdToSocketIdMap "bob" = some "H3" ∧
    Effect.userJoined "H3" "carol" ∉ (handleJoinRoom driftState4 "H4" "r1" "carol").2 := by
  refine ⟨by decide, by decide, by decide, by decide⟩

/-- Every entry surviving the room-cleanup loop comes from an entry of the
input with the same key, with members drawn from the original members. -/
theorem removeUser_mem (u : String) (m : List (String × List String)) :
    ∀ p ∈ removeUser u m, u ∉ p.2 ∧ ∃ us, (p.1, us) ∈ m ∧ ∀ x ∈ p.2, x ∈ us := by
  induction m with
  | nil => simp [removeUser]
  | cons q t ih =>
    obtain ⟨r, us0⟩ := q
    intro p hp
    simp only [removeUser] at hp
    by_cases hm : u ∈ us0
    · rw [if_pos hm] at hp
      by_cases he : us0.filter (fun x => x ≠ u) = []
      · rw [if_pos he] at hp
        obtain ⟨h1, us, h2, h3⟩ := ih p hp
        exact ⟨h1, us, List.mem_cons_of_mem _ h2, h3⟩
      · rw [if_neg he] at hp
        rcases List.mem_cons.1 hp with rfl | hp2
        · refine ⟨?_, us0, List.mem_cons_self _ _, ?_⟩
          · simp [List.mem_filter]
          · intro x hx
            exact (List.mem_filter.1 hx).1
        · obtain ⟨h1, us, h2, h3⟩ := ih p hp2
          exact ⟨h1, us, List.mem_cons_of_mem _ h2, h3⟩
    · rw [if_neg hm] at hp
      rcases List.mem_cons.1 hp with rfl | hp2
      · exact ⟨hm, us0, List.mem_cons_self _ _, fun x hx => hx⟩
      · obtain ⟨h1, us, h2, h3⟩ := ih p hp2
        exact ⟨h1, us, List.mem_cons_of_mem _ h2, h3⟩

theorem keys_setA_of_lookup_some {α : Type} {m : List (String × α)} {k : String}
    {w : α} (v : α) (h : lookupA m k = some w) :
    (setA m k v).map Prod.fst = m.map Prod.fst := by
  induction m with
  | nil => simp [lookupA] at h
  | cons p t ih =>
    obtain ⟨a, b⟩ := p
    by_cases hp : a = k
    · subst hp
      simp [setA]
    · simp only [lookupA, if_neg hp] at h
      simp [setA, hp, ih h]

/-- The keys of the cleaned-up room directory form a sublist of the
original keys. -/
theorem keys_removeUser_sublist (u : String) (m : List (String × List String)) :
    List.Sublist ((removeUser u m).map Prod.fst) (m.map Prod.fst) := by
  induction m with
  | nil => simp [removeUser]
  | cons q t ih =>
    obtain ⟨r, us⟩ := q
    simp only [removeUser, List.map_cons]
    by_cases hm : u ∈ us
    · rw [if_pos hm]
      by_cases he : us.filter (fun x => x ≠ u) = []
      · rw [if_pos he]
        exact ih.trans (List.sublist_cons_self _ _)
      · rw [if_neg he]
        simpa using ih.cons₂ r
    · rw [if_neg hm]
      simpa using ih.cons₂ r

/-- A step preserves distinctness of the room-directory keys. -/
theorem roomKeysNodup_step (st : ServerState) (e : Event) (h : RoomKeysNodup st) :
    RoomKeysNodup (stepEvent st e).1 := by
  cases e with
  | connect sid => exact h
  | signal sid payload =>
    unfold RoomKeysNodup
    rw [stepEvent, signal_state_eq]
    exact h
  | joinRoom sid roomId userId =>
    unfold RoomKeysNodup at h ⊢
    rw [stepEvent, joinRoom_rooms_cases]
    by_cases hr : lookupA st.rooms roomId = none
    · rw [if_pos hr, List.map_append]
      refine List.Nodup.append h (List.nodup_singleton _) ?_
      intro a ha hb
      rcases List.mem_singleton.1 hb with rfl
      exact (lookupA_eq_none_iff _ _).1 hr ha
    · rw [if_neg hr]
      cases hx : lookupA st.rooms roomId with
      | none => exact absurd hx hr
      | some us =>
        rw [keys_setA_of_lookup_some _ hx]
        exact h
  | disconnect sid =>
    cases hrev : lookupA st.socketIdToUserIdMap sid with
    | none =>
      unfold RoomKeysNodup
      rw [stepEvent, disconnect_state_none st sid hrev]
      exact h
    | some uid =>
      unfold RoomKeysNodup
      rw [stepEvent, disconnect_state_some st sid uid hrev]
      exact (keys_removeUser_sublist uid st.rooms).nodup h

/-- Distinctness of room keys holds along any event sequence. -/
theorem roomKeysNodup_runFrom (es : List Event) (st : ServerState)
    (h : RoomKeysNodup st) : RoomKeysNodup (runFrom st es) := by
  induction es generalizing st with
  | nil => exact h
  | cons e t ih => exact ih _ (roomKeysNodup_step st e h)

/-- If a room's only member is the removed user, the cleanup loop deletes
the room (for directories with distinct keys). -/
theorem lookupA_removeUser_drop (u r : String) (m : List (String × List String))
    (hnd : (m.map Prod.fst).Nodup) (us : List String)
    (h : lookupA m r = some us) (hm : u ∈ us)
    (he : us.filter (fun x => x ≠ u) = []) :
    lookupA (removeUser u m) r = none := by
  induction m with
  | nil => simp [lookupA] at h
  | cons q t ih =>
    obtain ⟨a, us0⟩ := q
    have hnd2 : (t.map Prod.fst).Nodup := (List.nodup_cons.1 hnd).2
    have hna : a ∉ t.map Prod.fst := (List.nodup_cons.1 hnd).1
    by_cases ha : a = r
    · subst ha
      simp only [lookupA, if_pos rfl] at h
      obtain rfl := Option.some.inj h
      simp only [removeUser, if_pos hm, if_pos he]
      apply (lookupA_eq_none_iff _ _).2
      intro hmem
      exact hna ((keys_removeUser_sublist u t).subset hmem)
    · simp only [lookupA, if_neg ha] at h
      simp only [removeUser]
      by_cases hm0 : u ∈ us0
      · rw [if_pos hm0]
        by_cases he0 : us0.filter (fun x => x ≠ u) = []
        · rw [if_pos he0]
          exact ih hnd2 h
        · rw [if_neg he0, lookupA, if_neg ha]
          exact ih hnd2 h
      · rw [if_neg hm0, lookupA, if_neg ha]
        exact ih hnd2 h

/-- The user-left block for any room containing the user is part of the
emissions of the cleanup loop. -/
theorem leaveEffects_mem (u sid r : String) (io m : List (String × List String))
    (us : List String) (h : lookupA m r = some us) (hm : u ∈ us)
    (e : Effect)
    (he : e ∈ (((lookupA io r).getD []).filter (fun s => s ≠ sid)).map
      (fun s => Effect.userLeft s u)) :
    e ∈ leaveEffects u sid io m := by
  induction m with
  | nil => simp [lookupA] at h
  | cons q t ih =>
    obtain ⟨a, us0⟩ := q
    by_cases ha : a = r
    · subst ha
      simp only [lookupA, if_pos rfl] at h
      obtain rfl := Option.some.inj h
      simp only [leaveEffects, if_pos hm]
      exact List.mem_append_left _ he
    · simp only [lookupA, if_neg ha] at h
      simp only [leaveEffects]
      by_cases hm0 : u ∈ us0
      · rw [if_pos hm0]
        exact List.mem_append_right _ (ih h)
      · rw [if_neg hm0]
        exact ih h

theorem lookupA_ioLeaveAll (io : List (String × List String)) (sid r : String) :
    lookupA (ioLeaveAll io sid) r =
      (lookupA io r).map (fun l => l.filter (fun s => s ≠ sid)) := by
  induction io with
  | nil => simp [ioLeaveAll, lookupA]
  | cons p t ih =>
    obtain ⟨a, l⟩ := p
    simp only [ioLeaveAll, List.map_cons] at ih ⊢
    by_cases ha : a = r
    · simp only [lookupA, if_pos ha, Option.map_some']
    · simp only [lookupA, if_neg ha]
      exact ih

/-- The socket.io membership after a join, per room. -/
theorem ioMembersOf_join (st : ServerState) (sid roomId userId r0 : String) :
    ioMembersOf (handleJoinRoom st sid roomId userId).1 r0 =
      if roomId = r0 then setAdd (ioMembersOf st roomId) sid
      else ioMembersOf st r0 := by
  by_cases h : roomId = r0
  · subst h
    simp [ioMembersOf, joinRoom_io, lookupA_setA_self]
  · simp only [ioMembersOf, joinRoom_io, if_neg h]
    rw [lookupA_setA_ne _ _ _ _ (fun hh => h hh.symm)]

/-- The joined room's membership after a join. -/
theorem membersOf_join_self (st : ServerState) (sid roomId userId : String) :
    membersOf (handleJoinRoom st sid roomId userId).1 roomId =
      setAdd (membersOf st roomId) userId := by
  unfold membersOf
  rw [joinRoom_rooms_cases]
  by_cases hr : lookupA st.rooms roomId = none
  · rw [if_pos hr, lookupA_append, hr]
    simp [lookupA, membersOf, hr]
  · rw [if_neg hr, lookupA_setA_self]
    simp [membersOf]

/-- A member of the post-join directory who is not the joiner was already
a member of an entry with the same key in the pre-join directory. -/
theorem joinRoom_rooms_mem_inv (st : ServerState) (sid roomId userId : String)
    {p : String × List String} {u : String}
    (hp : p ∈ (handleJoinRoom st sid roomId userId).1.rooms)
    (hu : u ∈ p.2) (hne : u ≠ userId) :
    ∃ q ∈ st.rooms, q.1 = p.1 ∧ u ∈ q.2 := by
  rw [joinRoom_rooms_cases] at hp
  by_cases hr : lookupA st.rooms roomId = none
  · rw [if_pos hr] at hp
    rcases List.mem_append.1 hp with hp2 | hp2
    · exact ⟨p, hp2, rfl, hu⟩
    · rcases List.mem_singleton.1 hp2 with rfl
      simp only [membersOf, hr, Option.getD_none] at hu
      rcases mem_setAdd.1 hu with h0 | h0
      · simp at h0
      · exact absurd h0 hne
  · rw [if_neg hr] at hp
    rcases mem_setA_weak hp with hp2 | hp2
    · exact ⟨p, hp2, rfl, hu⟩
    · rcases hp2 with rfl
      cases hx : lookupA st.rooms roomId with
      | none => exact absurd hx hr
      | some us =>
        simp only [membersOf, hx, Option.getD_some] at hu
        rcases mem_setAdd.1 hu with h0 | h0
        · exact ⟨(roomId, us), mem_of_lookupA hx, rfl, h0⟩
        · exact absurd h0 hne

/-- An entry of the post-join directory whose key is not the joined room
was an entry of the pre-join directory. -/
theorem joinRoom_rooms_mem_old (st : ServerState) (sid roomId userId : String)
    {p : String × List String}
    (hp : p ∈ (handleJoinRoom st sid roomId userId).1.rooms)
    (hne : p.1 ≠ roomId) : p ∈ st.rooms := by
  rw [joinRoom_rooms_cases] at hp
  by_cases hr : lookupA st.rooms roomId = none
  · rw [if_pos hr] at hp
    rcases List.mem_append.1 hp with hp2 | hp2
    · exact hp2
    · rcases List.mem_singleton.1 hp2 with rfl
      exact absurd rfl hne
  · rw [if_neg hr] at hp
    rcases mem_setA_weak hp with hp2 | hp2
    · exact hp2
    · rcases hp2 with rfl
      exact absurd rfl hne

/-- The rebinding-freedom conditions extracted from a good join event. -/
theorem goodEvent_join (st : ServerState) (sid roomId userId : String)
    (h : goodEvent st (Event.joinRoom sid roomId userId) = true) :
    (∀ v, lookupA st.socketIdToUserIdMap sid = some v → v = userId) ∧
    (∀ h0, lookupA st.userIdToSocketIdMap userId = some h0 → h0 = sid) := by
  unfold goodEvent at h
  rw [Bool.and_eq_true] at h
  constructor
  · intro v hv
    have h1 := h.1
    rw [hv] at h1
    exact eq_of_beq h1
  · intro h0 hh
    have h2 := h.2
    rw [hh] at h2
    exact eq_of_beq h2

/-- The invariant bundle survives a connect event. -/
theorem ginv_connect (st : ServerState) (sid : String) (hI : GInv st) :
    GInv (handleConnect st sid).1 := by
  obtain ⟨hA, hL, hM, hS⟩ := hI
  refine ⟨hA, ?_, hM, hS⟩
  intro u h hu
  exact mem_setAdd.2 (Or.inl (hL u h hu))

/-- The invariant bundle survives a rebinding-free join event. -/
theorem ginv_join (st : ServerState) (sid roomId userId : String)
    (hconn : sid ∈ st.connected)
    (hrevc : ∀ v, lookupA st.socketIdToUserIdMap sid = some v → v = userId)
    (hfwdc : ∀ h0, lookupA st.userIdToSocketIdMap userId = some h0 → h0 = sid)
    (hI : GInv st) : GInv (handleJoinRoom st sid roomId userId).1 := by
  obtain ⟨⟨hA1, hA2⟩, hL, hM, hS⟩ := hI
  refine ⟨⟨?_, ?_⟩, ?_, ?_, ?_⟩
  · intro u h hu
    have hu2 : lookupA (setA st.userIdToSocketIdMap userId sid) u = some h := hu
    show lookupA (setA st.socketIdToUserIdMap sid userId) h = some u
    by_cases huu : u = userId
    · rw [huu] at hu2 ⊢
      rw [lookupA_setA_self] at hu2
      have hsid : sid = h := Option.some.inj hu2
      rw [← hsid, lookupA_setA_self]
    · rw [lookupA_setA_ne _ _ _ _ huu] at hu2
      have hrv := hA1 u h hu2
      have hhs : h ≠ sid := fun heq => huu (hrevc u (heq ▸ hrv))
      rw [lookupA_setA_ne _ _ _ _ hhs]
      exact hrv
  · intro h u hh
    have hh2 : lookupA (setA st.socketIdToUserIdMap sid userId) h = some u := hh
    show lookupA (setA st.userIdToSocketIdMap userId sid) u = some h
    by_cases hhs : h = sid
    · rw [hhs] at hh2 ⊢
      rw [lookupA_setA_self] at hh2
      have huid : userId = u := Option.some.inj hh2
      rw [← huid, lookupA_setA_self]
    · rw [lookupA_setA_ne _ _ _ _ hhs] at hh2
      have hfw := hA2 h u hh2
      have huu : u ≠ userId := fun heq => hhs (hfwdc h (heq ▸ hfw))
      rw [lookupA_setA_ne _ _ _ _ huu]
      exact hfw
  · intro u h hu
    have hu2 : lookupA (setA st.userIdToSocketIdMap userId sid) u = some h := hu
    show h ∈ st.connected
    by_cases huu : u = userId
    · rw [huu] at hu2
      rw [lookupA_setA_self] at hu2
      have hsid : sid = h := Option.some.inj hu2
      rw [← hsid]
      exact hconn
    · rw [lookupA_setA_ne _ _ _ _ huu] at hu2
      exact hL u h hu2
  · intro p hp u hu
    show (lookupA (setA st.userIdToSocketIdMap userId sid) u).isSome = true
    by_cases huu : u = userId
    · rw [huu, lookupA_setA_self]
      rfl
    · rw [lookupA_setA_ne _ _ _ _ huu]
      obtain ⟨q, hq, hqeq, hqu⟩ := joinRoom_rooms_mem_inv st sid roomId userId hp hu huu
      exact hM q hq u hqu
  · intro p hp u hu h hh
    have hh2 : lookupA (setA st.userIdToSocketIdMap userId sid) u = some h := hh
    rw [ioMembersOf_join]
    by_cases huu : u = userId
    · rw [huu] at hh2
      rw [lookupA_setA_self] at hh2
      have hsid : sid = h := Option.some.inj hh2
      by_cases hpr : roomId = p.1
      · rw [if_pos hpr, ← hsid]
        exact mem_setAdd.2 (Or.inr rfl)
      · rw [if_neg hpr]
        have hpold : p ∈ st.rooms :=
          joinRoom_rooms_mem_old st sid roomId userId hp (fun hh3 => hpr hh3.symm)
        have hu3 : userId ∈ p.2 := huu ▸ hu
        have hb := hM p hpold userId hu3
        obtain ⟨h0, hh0⟩ := Option.isSome_iff_exists.1 hb
        have hs0 : h0 = sid := hfwdc h0 hh0
        rw [hs0] at hh0
        rw [← hsid]
        exact hS p hpold userId hu3 sid hh0
    · rw [lookupA_setA_ne _ _ _ _ huu] at hh2
      obtain ⟨q, hq, hqeq, hqu⟩ := joinRoom_rooms_mem_inv st sid roomId userId hp hu huu
      have hio := hS q hq u hqu h hh2
      rw [hqeq] at hio
      by_cases hpr : roomId = p.1
      · rw [if_pos hpr]
        rw [← hpr] at hio
        exact mem_setAdd.2 (Or.inl hio)
      · rw [if_neg hpr]
        exact hio

/-- The invariant bundle survives a disconnect event. -/
theorem ginv_disconnect (st : ServerState) (sid : String) (hI : GInv st) :
    GInv (handleDisconnect st sid).1 := by
  obtain ⟨⟨hA1, hA2⟩, hL, hM, hS⟩ := hI
  cases hrev : lookupA st.socketIdToUserIdMap sid with
  | none =>
    rw [disconnect_state_none st sid hrev]
    refine ⟨⟨hA1, hA2⟩, ?_, hM, ?_⟩
    · intro u h hu
      have hu2 : lookupA st.userIdToSocketIdMap u = some h := hu
      have hhs : h ≠ sid := by
        intro heq
        have hrv := hA1 u h hu2
        rw [heq, hrev] at hrv
        exact Option.noConfusion hrv
      show h ∈ st.connected.filter (fun s => s ≠ sid)
      exact List.mem_filter.2 ⟨hL u h hu2, by simp [hhs]⟩
    · intro p hp u hu h hh
      have hp2 : p ∈ st.rooms := hp
      have hh2 : lookupA st.userIdToSocketIdMap u = some h := hh
      have hio : h ∈ (lookupA st.ioRooms p.1).getD [] := hS p hp2 u hu h hh2
      have hhs : h ≠ sid := by
        intro heq
        have hrv := hA1 u h hh2
        rw [heq, hrev] at hrv
        exact Option.noConfusion hrv
      show h ∈ (lookupA (ioLeaveAll st.ioRooms sid) p.1).getD []
      rw [lookupA_ioLeaveAll]
      cases hx : lookupA st.ioRooms p.1 with
      | none =>
        rw [hx] at hio
        simp at hio
      | some l =>
        rw [hx] at hio
        simp only [Option.getD_some] at hio
        simp only [Option.map_some', Option.getD_some]
        exact List.mem_filter.2 ⟨hio, by simp [hhs]⟩
  | some uid =>
    rw [disconnect_state_some st sid uid hrev]
    have hfuid : lookupA st.userIdToSocketIdMap uid = some sid := hA2 sid uid hrev
    refine ⟨⟨?_, ?_⟩, ?_, ?_, ?_⟩
    · intro u h hu
      have hu2 : lookupA (eraseA st.userIdToSocketIdMap uid) u = some h := hu
      show lookupA (eraseA st.socketIdToUserIdMap sid) h = some u
      by_cases huu : u = uid
      · rw [huu, lookupA_eraseA_self] at hu2
        exact Option.noConfusion hu2
      · rw [lookupA_eraseA_ne _ _ _ huu] at hu2
        have hrv := hA1 u h hu2
        have hhs : h ≠ sid := by
          intro heq
          rw [heq, hrev] at hrv
          exact huu (Option.some.inj hrv).symm
        rw [lookupA_eraseA_ne _ _ _ hhs]
        exact hrv
    · intro h u hh
      have hh2 : lookupA (eraseA st.socketIdToUserIdMap sid) h = some u := hh
      show lookupA (eraseA st.userIdToSocketIdMap uid) u = some h
      by_cases hhs : h = sid
      · rw [hhs, lookupA_eraseA_self] at hh2
        exact Option.noConfusion hh2
      · rw [lookupA_eraseA_ne _ _ _ hhs] at hh2
        have hfw := hA2 h u hh2
        have huu : u ≠ uid := by
          intro heq
          rw [heq, hfuid] at hfw
          exact hhs (Option.some.inj hfw).symm
        rw [lookupA_eraseA_ne _ _ _ huu]
        exact hfw
    · intro u h hu
      have hu2 : lookupA (eraseA st.userIdToSocketIdMap uid) u = some h := hu
      show h ∈ st.connected.filter (fun s => s ≠ sid)
      by_cases huu : u = uid
      · rw [huu, lookupA_eraseA_self] at hu2
        exact Option.noConfusion hu2
      · rw [lookupA_eraseA_ne _ _ _ huu] at hu2
        have hhs : h ≠ sid := by
          intro heq
          have hrv := hA1 u h hu2
          rw [heq, hrev] at hrv
          exact huu (Option.some.inj hrv).symm
        exact List.mem_filter.2 ⟨hL u h hu2, by simp [hhs]⟩
    · intro p hp u hu
      have hp2 : p ∈ removeUser uid st.rooms := hp
      obtain ⟨hnu, us, hus, hsub⟩ := removeUser_mem uid st.rooms p hp2
      have huu : u ≠ uid := fun heq => hnu (heq ▸ hu)
      show (lookupA (eraseA st.userIdToSocketIdMap uid) u).isSome = true
      rw [lookupA_eraseA_ne _ _ _ huu]
      exact hM (p.1, us) hus u (hsub u hu)
    · intro p hp u hu h hh
      have hp2 : p ∈ removeUser uid st.rooms := hp
      have hh2 : lookupA (eraseA st.userIdToSocketIdMap uid) u = some h := hh
      obtain ⟨hnu, us, hus, hsub⟩ := removeUser_mem uid st.rooms p hp2
      have huu : u ≠ uid := fun heq => hnu (heq ▸ hu)
      rw [lookupA_eraseA_ne _ _ _ huu] at hh2
      have hio : h ∈ (lookupA st.ioRooms p.1).getD [] :=
        hS (p.1, us) hus u (hsub u hu) h hh2
      have hhs : h ≠ sid := by
        intro heq
        have hrv := hA1 u h hh2
        rw [heq, hrev] at hrv
        exact huu (Option.some.inj hrv).symm
      show h ∈ (lookupA (ioLeaveAll st.ioRooms sid) p.1).getD []
      rw [lookupA_ioLeaveAll]
      cases hx : lookupA st.ioRooms p.1 with
      | none =>
        rw [hx] at hio
        simp at hio
      | some l =>
        rw [hx] at hio
        simp only [Option.getD_some] at hio
        simp only [Option.map_some', Option.getD_some]
        exact List.mem_filter.2 ⟨hio, by simp [hhs]⟩

/-- The invariant bundle holds in the empty initial state. -/
theorem ginv_init : GInv initState := by
  refine ⟨⟨?_, ?_⟩, ?_, ?_, ?_⟩
  · intro u h hu
    simp [initState, lookupA] at hu
  · intro h u hh
    simp [initState, lookupA] at hh
  · intro u h hu
    simp [initState, lookupA] at hu
  · intro p hp
    simp [initState] at hp
  · intro p hp
    simp [initState] at hp

/-- One wellformed rebinding-free step preserves the invariant bundle. -/
theorem ginv_step (st : ServerState) (e : Event)
    (hwf : wfEvent st e = true) (hgood : goodEvent st e = true)
    (hI : GInv st) : GInv (stepEvent st e).1 := by
  cases e with
  | connect sid => exact ginv_connect st sid hI
  | joinRoom sid roomId userId =>
    obtain ⟨h1, h2⟩ := goodEvent_join st sid roomId userId hgood
    have hconn : sid ∈ st.connected := by
      unfold wfEvent at hwf
      simpa using hwf
    exact ginv_join st sid roomId userId hconn h1 h2 hI
  | signal sid payload =>
    show GInv (handleSignal st sid payload).1
    rw [signal_state_eq]
    exact hI
  | disconnect sid => exact ginv_disconnect st sid hI

/-- The invariant bundle holds after any wellformed rebinding-free run. -/
theorem ginv_goodRun (es : List Event) (st : ServerState)
    (hwf : goodWf st es = true) (hI : GInv st) : GInv (runFrom st es) := by
  induction es generalizing st with
  | nil => exact hI
  | cons e t ih =>
    unfold goodWf at hwf
    rw [Bool.and_eq_true, Bool.and_eq_true] at hwf
    exact ih _ hwf.2 (ginv_step st e hwf.1.1 hwf.1.2 hI)

/-- C2 (amended, proved): in every state reached by a wellformed
rebinding-free event sequence, the forward and reverse registry maps agree
exactly: each forward entry has a matching reverse entry and conversely. -/
theorem C2_amended (es : List Event) (hwf : goodWf initState es = true) :
    AgreeMaps (runFrom initState es) :=
  (ginv_goodRun es initState hwf ginv_init).1

/-- Witness for C2_amended on a concrete rebinding-free trace. -/
theorem C2_amended_witness :
    goodWf initState cleanTrace = true ∧ AgreeMaps (runFrom initState cleanTrace) :=
  ⟨by decide, C2_amended cleanTrace (by decide)⟩

/-- C3 (amended, proved): in every state reached by a wellformed
rebinding-free event sequence, every userId present in some room is bound
in the forward map to a currently connected socket. -/
theorem C3_amended (es : List Event) (hwf : goodWf initState es = true) :
    ∀ r us, lookupA (runFrom initState es).rooms r = some us →
      ∀ u ∈ us, ∃ h, lookupA (runFrom initState es).userIdToSocketIdMap u = some h ∧
        h ∈ (runFrom initState es).connected := by
  obtain ⟨hA, hL, hM, hS⟩ := ginv_goodRun es initState hwf ginv_init
  intro r us hus u hu
  have hb := hM (r, us) (mem_of_lookupA hus) u hu
  obtain ⟨h, hh⟩ := Option.isSome_iff_exists.1 hb
  exact ⟨h, hh, hL u h hh⟩

/-- Witness for C3_amended on a concrete rebinding-free trace. -/
theorem C3_amended_witness :
    goodWf initState cleanTrace = true ∧
    (∀ r us, lookupA (runFrom initState cleanTrace).rooms r = some us →
      ∀ u ∈ us, ∃ h, lookupA (runFrom initState cleanTrace).userIdToSocketIdMap u = some h ∧
        h ∈ (runFrom initState cleanTrace).connected) :=
  ⟨by decide, C3_amended cleanTrace (by decide)⟩

/-- C5 (amended, proved): when a socket hs whose reverse-map entry names u
disconnects: (a) afterwards no room contains u; (b) every room whose whole
membership was exactly u is gone from the directory; and (c) on
rebinding-free runs, every remaining member v of a room containing u is
sent user-left with userId u on v's resolved socket. -/
theorem C5_amended (es : List Event) (hs u : String)
    (hrev : lookupA (runFrom initState es).socketIdToUserIdMap hs = some u) :
    (∀ r us, lookupA (handleDisconnect (runFrom initState es) hs).1.rooms r = some us →
      u ∉ us) ∧
    (∀ r, lookupA (runFrom initState es).rooms r = some [u] →
      lookupA (handleDisconnect (runFrom initState es) hs).1.rooms r = none) ∧
    (goodWf initState es = true →
      ∀ r us, lookupA (runFrom initState es).rooms r = some us → u ∈ us →
        ∀ v ∈ us, v ≠ u →
          ∀ sv, lookupA (runFrom initState es).userIdToSocketIdMap v = some sv →
            Effect.userLeft sv u ∈ (handleDisconnect (runFrom initState es) hs).2) := by
  have hstate := disconnect_state_some (runFrom initState es) hs u hrev
  have heff := disconnect_effects_some (runFrom initState es) hs u hrev
  rw [hstate, heff]
  refine ⟨?_, ?_, ?_⟩
  · intro r us hus
    exact removeUser_not_mem u _ (r, us) (mem_of_lookupA hus)
  · intro r hr
    have hnd : RoomKeysNodup (runFrom initState es) :=
      roomKeysNodup_runFrom es initState (by simp [RoomKeysNodup, initState])
    exact lookupA_removeUser_drop u r _ hnd [u] hr (List.mem_singleton_self u) (by simp)
  · intro hgood r us hus hmu v hvmem hvne sv hsv
    obtain ⟨⟨hA1, hA2⟩, hL, hM, hS⟩ := ginv_goodRun es initState hgood ginv_init
    have hio : sv ∈ (lookupA (runFrom initState es).ioRooms r).getD [] :=
      hS (r, us) (mem_of_lookupA hus) v hvmem sv hsv
    have hne2 : sv ≠ hs := by
      intro heq
      have hrv := hA1 v sv hsv
      rw [heq, hrev] at hrv
      exact hvne (Option.some.inj hrv).symm
    apply leaveEffects_mem u hs r (ioLeaveAll (runFrom initState es).ioRooms hs)
      (runFrom initState es).rooms us hus hmu
    rw [lookupA_ioLeaveAll]
    cases hx : lookupA (runFrom initState es).ioRooms r with
    | none =>
      rw [hx] at hio
      simp at hio
    | some l =>
      rw [hx] at hio
      simp only [Option.getD_some] at hio
      simp only [Option.map_some', Option.getD_some]
      apply List.mem_map.2
      refine ⟨sv, ?_, rfl⟩
      apply List.mem_filter.2
      refine ⟨List.mem_filter.2 ⟨hio, by simp [hne2]⟩, by simp [hne2]⟩

/-- Witness for C5_amended on a concrete rebinding-free trace. -/
theorem C5_amended_witness :
    lookupA (runFrom initState cleanTrace).socketIdToUserIdMap "H1" = some "alice" ∧
    ((∀ r us, lookupA (handleDisconnect (runFrom initState cleanTrace) "H1").1.rooms r = some us →
      "alice" ∉ us) ∧
    (∀ r, lookupA (runFrom initState cleanTrace).rooms r = some ["alice"] →
      lookupA (handleDisconnect (runFrom initState cleanTrace) "H1").1.rooms r = none) ∧
    (goodWf initState cleanTrace = true →
      ∀ r us, lookupA (runFrom initState cleanTrace).rooms r = some us → "alice" ∈ us →
        ∀ v ∈ us, v ≠ "alice" →
          ∀ sv, lookupA (runFrom initState cleanTrace).userIdToSocketIdMap v = some sv →
            Effect.userLeft sv "alice" ∈ (handleDisconnect (runFrom initState cleanTrace) "H1").2)) :=
  ⟨by decide, C5_amended cleanTrace "H1" "alice" (by decide)⟩

theorem goodWf_append (st : ServerState) (es1 es2 : List Event) :
    goodWf st (es1 ++ es2) = (goodWf st es1 && goodWf (runFrom st es1) es2) := by
  induction es1 generalizing st with
  | nil => simp [goodWf, runFrom]
  | cons e t ih =>
    simp [goodWf, runFrom, ih, Bool.and_assoc]

theorem filter_setAdd_self (l : List String) (x : String) :
    (setAdd l x).filter (fun y => y ≠ x) = l.filter (fun y => y ≠ x) := by
  unfold setAdd
  by_cases h : x ∈ l
  · rw [if_pos h]
  · rw [if_neg h, List.filter_append]
    simp

/-- C8 (amended, proved): for a join of roomId as userId by socket sid at
the end of a wellformed rebinding-free run: the first emission is
existing-users to the joiner listing exactly the members of the room other
than userId (never userId itself); no user-joined is ever addressed to the
joiner's socket; the joiner is already recorded as a member when the
broadcast fires; and every other member's resolved socket is sent
user-joined {userId}. -/
theorem C8_amended (es : List Event) (sid roomId userId : String)
    (hwf : goodWf initState (es ++ [Event.joinRoom sid roomId userId]) = true) :
    ((handleJoinRoom (runFrom initState es) sid roomId userId).2.head? =
      some (Effect.existingUsers sid
        ((membersOf (runFrom initState es) roomId).filter (fun x => x ≠ userId)))) ∧
    (userId ∉ (membersOf (runFrom initState es) roomId).filter (fun x => x ≠ userId)) ∧
    (∀ x, Effect.userJoined sid x ∉
      (handleJoinRoom (runFrom initState es) sid roomId userId).2) ∧
    (userId ∈ membersOf (handleJoinRoom (runFrom initState es) sid roomId userId).1 roomId) ∧
    (∀ v, v ∈ membersOf (handleJoinRoom (runFrom initState es) sid roomId userId).1 roomId →
      v ≠ userId →
      ∀ sv, lookupA (runFrom initState es).userIdToSocketIdMap v = some sv →
        Effect.userJoined sv userId ∈
          (handleJoinRoom (runFrom initState es) sid roomId userId).2) := by
  rw [goodWf_append, Bool.and_eq_true] at hwf
  obtain ⟨hg1, hg2⟩ := hwf
  unfold goodWf at hg2
  rw [Bool.and_eq_true, Bool.and_eq_true] at hg2
  obtain ⟨⟨hwfe, hge⟩, hrest⟩ := hg2
  obtain ⟨hrevc, hfwdc⟩ := goodEvent_join (runFrom initState es) sid roomId userId hge
  obtain ⟨⟨hA1, hA2⟩, hL, hM, hS⟩ := ginv_goodRun es initState hg1 ginv_init
  refine ⟨?_, ?_, ?_, ?_, ?_⟩
  · rw [joinRoom_effects_eq]
    simp only [List.head?_cons]
    rw [filter_setAdd_self]
  · intro hx
    have h2 := (List.mem_filter.1 hx).2
    simp at h2
  · intro x hx
    rw [joinRoom_effects_eq] at hx
    rcases List.mem_cons.1 hx with h0 | h0
    · exact Effect.noConfusion h0
    · obtain ⟨s, hsmem, heq⟩ := List.mem_map.1 h0
      injection heq with e1 e2
      have h2 := (List.mem_filter.1 hsmem).2
      rw [e1] at h2
      simp at h2
  · rw [membersOf_join_self]
    exact mem_setAdd.2 (Or.inr rfl)
  · intro v hv hvne sv hsv
    rw [membersOf_join_self] at hv
    rcases mem_setAdd.1 hv with hv0 | hv0
    · rw [joinRoom_effects_eq]
      apply List.mem_cons_of_mem
      apply List.mem_map.2
      refine ⟨sv, ?_, rfl⟩
      apply List.mem_filter.2
      have hne2 : sv ≠ sid := by
        intro heq
        have hrv := hA1 v sv hsv
        rw [heq] at hrv
        exact hvne (hrevc v hrv)
      refine ⟨?_, by simp [hne2]⟩
      apply mem_setAdd.2
      left
      cases hx : lookupA (runFrom initState es).rooms roomId with
      | none =>
        unfold membersOf at hv0
        rw [hx] at hv0
        simp at hv0
      | some us =>
        unfold membersOf at hv0
        rw [hx] at hv0
        simp only [Option.getD_some] at hv0
        exact hS (roomId, us) (mem_of_lookupA hx) v hv0 sv hsv
    · exact absurd hv0 hvne

/-- Witness for C8_amended on a concrete rebinding-free trace. -/
theorem C8_amended_witness :
    goodWf initState ((cleanTrace ++ [Event.connect "H3"]) ++
      [Event.joinRoom "H3" "r1" "carol"]) = true ∧
    (((handleJoinRoom (runFrom initState (cleanTrace ++ [Event.connect "H3"])) "H3" "r1" "carol").2.head? =
      some (Effect.existingUsers "H3"
        ((membersOf (runFrom initState (cleanTrace ++ [Event.connect "H3"])) "r1").filter
          (fun x => x ≠ "carol")))) ∧
    ("carol" ∉ (membersOf (runFrom initState (cleanTrace ++ [Event.connect "H3"])) "r1").filter
      (fun x => x ≠ "carol")) ∧
    (∀ x, Effect.userJoined "H3" x ∉
      (handleJoinRoom (runFrom initState (cleanTrace ++ [Event.connect "H3"])) "H3" "r1" "carol").2) ∧
    ("carol" ∈ membersOf
      (handleJoinRoom (runFrom initState (cleanTrace ++ [Event.connect "H3"])) "H3" "r1" "carol").1 "r1") ∧
    (∀ v, v ∈ membersOf
        (handleJoinRoom (runFrom initState (cleanTrace ++ [Event.connect "H3"])) "H3" "r1" "carol").1 "r1" →
      v ≠ "carol" →
      ∀ sv, lookupA (runFrom initState (cleanTrace ++ [Event.connect "H3"])).userIdToSocketIdMap v = some sv →
        Effect.userJoined sv "carol" ∈
          (handleJoinRoom (runFrom initState (cleanTrace ++ [Event.connect "H3"])) "H3" "r1" "carol").2)) :=
  ⟨by decide,
    C8_amended (cleanTrace ++ [Event.connect "H3"]) "H3" "r1" "carol" (by decide)⟩
